import Mathlib

/-!
# BuzkaaClicker webapi: latest program files and activity log handlers

Shallow embedding of `program.go` (the `Program` model, `PgProgramRepo.LatestProgramFiles`,
`ProgramController.Download`) and of `transport/rest/activitylog.go`
(`ActivityController.serveLastActivity`), followed by the properties established about them.

Conventions of the embedding:
* a Go slice is an `Option (List _)`: `none` is the nil slice;
* a Go `(value, error)` result is a pair whose second component is `none` for a nil error;
* a Go error value is a pointer to an object; `GoError` keeps the address with the content
  and `==` on errors compares dynamic type and address, as `errors.Is` does along the `%w`
  chain;
* collaborators outside the two files (the bun database handle, the fiber request context,
  the activity store) are records of the observations the code makes of them.
-/

namespace Webapi

/-! ## Go errors -/

/-- The address of a Go object. The object behind a package-level variable is created once
at start-up and is known by the name of the variable; every other object is created at run
time, the `n`-th allocation giving the object `heap n`. No run-time object shares its address
with a package-level one. -/
inductive Addr where
  | static (name : String)
  | heap (n : Nat)
  deriving DecidableEq, Repr

/-- Go error values. Each is a pointer: to an `*errors.errorString` (made by `errors.New`,
or by `fmt.Errorf` without `%w`), to a `*fmt.wrapError` (made by `fmt.Errorf` with one `%w`
operand, holding the formatted message and the wrapped error) or to a `*fiber.Error`. The
field `addr` is the address pointed to. -/
inductive GoError where
  | errorString (addr : Addr) (s : String)
  | wrapError (addr : Addr) (msg : String) (err : GoError)
  | fiberError (addr : Addr) (code : Nat) (message : String)
  deriving DecidableEq, Repr

/-- The `Error()` method. -/
def GoError.Error : GoError → String
  | .errorString _ s => s
  | .wrapError _ msg _ => msg
  | .fiberError _ _ message => message

/-- The comparison `a == b` of two error interface values: the dynamic types are the same
and the two pointers are the same address. The content plays no part. -/
def GoError.same : GoError → GoError → Bool
  | .errorString p _, .errorString q _ => p == q
  | .wrapError p _ _, .wrapError q _ _ => p == q
  | .fiberError p _ _, .fiberError q _ _ => p == q
  | _, _ => false

/-- The call `errors.New(s)` when it is the run-time allocation number `fresh`. -/
def errorsNew (fresh : Nat) (s : String) : GoError := .errorString (.heap fresh) s

/-- The call `fmt.Errorf(format, ...)` without `%w`, `s` being the formatted text: it
returns `errors.New(s)`. -/
def fmtErrorf (fresh : Nat) (s : String) : GoError := errorsNew fresh s

/-- The call `fmt.Errorf(format + "%w", err)` where `format` holds no other verb, when it is
the run-time allocation number `fresh`. -/
def fmtErrorfW (fresh : Nat) (format : String) (err : GoError) : GoError :=
  .wrapError (.heap fresh) (format ++ err.Error) err

/-- The function `errors.Is`: `err`, or some error on its `Unwrap` chain, `==` `target`. -/
def errorsIs (err target : GoError) : Bool :=
  if err.same target then true
  else
    match err with
    | .wrapError _ _ inner => errorsIs inner target
    | _ => false

/-- `var ErrProgramNotFound = errors.New("program not found")` (program.go 15): the object
made at start-up for this package-level variable. -/
def ErrProgramNotFound : GoError :=
  .errorString (.static "ErrProgramNotFound") "program not found"

/-- The package-level value `fiber.ErrNotFound`, made by `fiber.NewError(404)`. -/
def fiberErrNotFound : GoError := .fiberError (.static "fiber.ErrNotFound") 404 "Not Found"

/-- The package-level value `fiber.ErrUnauthorized`, made by `fiber.NewError(401)`. -/
def fiberErrUnauthorized : GoError :=
  .fiberError (.static "fiber.ErrUnauthorized") 401 "Unauthorized"

/-- The constant `fiber.StatusBadRequest`. -/
def fiberStatusBadRequest : Nat := 400

/-- The call `fiber.NewError(code, message)` when it is the run-time allocation number
`fresh`. -/
def fiberNewError (fresh : Nat) (code : Nat) (message : String) : GoError :=
  .fiberError (.heap fresh) code message

/-! ## Data model (program.go 17-39) -/

/-- A `time.Time`, kept as seconds and nanoseconds since the Unix epoch. -/
structure Time where
  sec : Int
  nsec : Nat
  deriving DecidableEq, Repr

/-- The method `Time.Unix`. -/
def Time.Unix (t : Time) : Int := t.sec

/-- A `sql.NullTime`: `Valid` is false for SQL NULL. -/
structure NullTime where
  Time : Time
  Valid : Bool
  deriving DecidableEq, Repr

/-- Single program file (program.go 18-25). -/
structure ProgramFile where
  Path : String
  DownloadUrl : String
  Hash : String
  deriving DecidableEq, Repr

/-- A `[]ProgramFile`; `none` is the nil slice. -/
abbrev Files := Option (List ProgramFile)

/-- Row of table `program` (program.go 28-39). The column `type` is the field `Type_`. -/
structure Program where
  Id : Int
  CreatedAt : Time
  DestroyedAt : NullTime
  Type_ : String
  OS : String
  Arch : String
  Branch : String
  Files : Files
  deriving DecidableEq, Repr

/-- A record is soft-deleted when its `destroyed_at` column is set. -/
def Program.softDeleted (p : Program) : Bool := p.DestroyedAt.Valid

/-! ## The ranked query (program.go 85-99) -/

/-- The statement assembled by `LatestProgramFiles`, identified by its four bound arguments:
`select files from (select *, row_number() over(partition by type, os, arch, branch order by
id desc) as _row_number from program where type=? and os=? and arch=? and branch=?) as t
where t._row_number = 1`. Both selects are built from the table name (`Table("program")`,
`TableExpr`) and scanned into a plain slice, with no `Model`, so the statement holds the
four `Where` clauses and the row-number test and no condition on `destroyed_at`. -/
structure LatestFilesQuery where
  fileType : String
  os : String
  arch : String
  branch : String
  deriving DecidableEq, Repr

/-- The conjunction of the four `Where` calls (program.go 89-92). -/
def LatestFilesQuery.wheres (q : LatestFilesQuery) (p : Program) : Bool :=
  p.Type_ == q.fileType && p.OS == q.os && p.Arch == q.arch && p.Branch == q.branch

/-- The partition key of the window: `partition by type, os, arch, branch`. -/
def partitionKey (p : Program) : String × String × String × String :=
  (p.Type_, p.OS, p.Arch, p.Branch)

/-- The window order `order by id desc`: `a` is placed no later than `b`. -/
def idDesc (a b : Program) : Prop := b.Id ≤ a.Id

instance : DecidableRel idDesc := fun a b => inferInstanceAs (Decidable (b.Id ≤ a.Id))

instance : IsTotal Program idDesc := ⟨fun a b => Int.le_total b.Id a.Id⟩

instance : IsTrans Program idDesc := ⟨fun _ _ _ hab hbc => Int.le_trans hbc hab⟩

/-- A row of the derived table `t`: every column of `program` and `_row_number`. -/
structure RankedRow where
  row : Program
  row_number : Nat
  deriving DecidableEq, Repr

/-- The window function `row_number() over(partition by type, os, arch, branch order by id
desc)`: the rows are split by partition key, every partition is ordered by descending id
and its rows are numbered from 1. -/
def rowNumberOver (rows : List Program) : List RankedRow :=
  ((rows.map partitionKey).dedup).flatMap fun k =>
    (((rows.filter fun p => partitionKey p == k).insertionSort idDesc).enumFrom 1).map
      fun nr => ⟨nr.2, nr.1⟩

/-- The inner select `subq` (program.go 85-92) over the rows of table `program`. -/
def LatestFilesQuery.subq (q : LatestFilesQuery) (program : List Program) : List RankedRow :=
  rowNumberOver (program.filter q.wheres)

/-- The outer select (program.go 95-98): column `files` of the rows of `t` with
`_row_number = 1`. -/
def LatestFilesQuery.rows (q : LatestFilesQuery) (program : List Program) : List Files :=
  ((q.subq program).filter fun t => t.row_number == 1).map fun t => t.row.Files

/-- The handle `*bun.DB` as the repository observes it: the outcome of `Scan` for the
statement, a driver error or the list of scanned `files` values. -/
structure DB where
  Scan : LatestFilesQuery → Except GoError (List Files)

/-- A database that executes the statement over the given content of table `program`. -/
def postgres (program : List Program) : DB :=
  ⟨fun q => .ok (q.rows program)⟩

/-! ## The repository (program.go 68-113) -/

/-- The interface `ProgramRepo` (program.go 68-72). -/
structure ProgramRepo where
  LatestProgramFiles : String → String → String → String → Files × Option GoError

/-- The struct `PgProgramRepo` (program.go 74-76). -/
structure PgProgramRepo where
  DB : DB

/-- The method `PgProgramRepo.LatestProgramFiles` (program.go 83-113). A call allocates at
most one error object; `fresh` is the number of that allocation. -/
def PgProgramRepo.LatestProgramFiles (repo : PgProgramRepo) (fresh : Nat)
    (fileType os arch branch : String) : Files × Option GoError :=
  match repo.DB.Scan ⟨fileType, os, arch, branch⟩ with
  | .error err => (none, some (fmtErrorfW fresh "query: " err))
  | .ok files =>
    let filesLen := files.length
    match h : filesLen with
    | 0 => (none, some ErrProgramNotFound)
    | 1 => (files[0], none)
    | _ + 2 => (none, some (fmtErrorf fresh ("too many results (" ++ toString filesLen ++ ")")))

/-- A `PgProgramRepo` used through the interface `ProgramRepo`. -/
def PgProgramRepo.toProgramRepo (repo : PgProgramRepo) (fresh : Nat) : ProgramRepo :=
  ⟨repo.LatestProgramFiles fresh⟩

/-! ## The fiber request context -/

/-- Modelled from the spec: the declaration of `buzza.User` is not among the sources. A user
is identified by an id, the only field the handler reads. -/
structure User where
  Id : Int
  deriving DecidableEq, Repr

/-- The request `*fiber.Ctx` as the handlers observe it. -/
structure Ctx where
  /-- Value of a route parameter; `""` when the route has none of that name or it is empty. -/
  routeParam : String → String
  /-- Decoded value of a query-string key (`QueryArgs().Peek`); `""` when the key is absent. -/
  queryArg : String → String
  /-- Outcome of `ctx.Locals(userLocalsKey).(buzza.User)`: `none` when the assertion fails. -/
  localsUser : Option User
  /-- Error reported by the JSON encoder behind `ctx.JSON`, `none` when it encodes. -/
  jsonEncoderErr : Option GoError

/-- The helper `defaultString` of fiber: the first default stands in for an empty value. -/
def defaultString (value : String) (defaultValue : List String) : String :=
  match defaultValue with
  | d :: _ => if value.length = 0 then d else value
  | [] => value

/-- The method `ctx.Params(key, defaultValue...)`. -/
def Ctx.Params (ctx : Ctx) (key : String) (defaultValue : List String) : String :=
  defaultString (ctx.routeParam key) defaultValue

/-- The method `ctx.Query(key, defaultValue...)`. -/
def Ctx.Query (ctx : Ctx) (key : String) (defaultValue : List String) : String :=
  defaultString (ctx.queryArg key) defaultValue

/-- What a handler did with a request: the calls it made to its collaborator, in order, the
value it handed to `ctx.JSON` (if it got there) and the error it returned (`none` for nil). -/
structure Handled (κ β : Type) where
  calls : List κ
  json : Option β
  ret : Option GoError

/-! ## ProgramController.Download (program.go 41-66) -/

/-- The arguments of one call `Repo.LatestProgramFiles(ctx, fileType, os, arch, branch)`. -/
structure LatestProgramFilesCall where
  fileType : String
  os : String
  arch : String
  branch : String
  deriving DecidableEq, Repr

/-- The struct `ProgramController` (program.go 41-43). -/
structure ProgramController where
  Repo : ProgramRepo

/-- The method `ProgramController.Download` (program.go 46-66). The calls recorded are the
argument lists of `c.Repo.LatestProgramFiles`. The handler allocates at most one error
object of its own; `fresh` is the number of that allocation. -/
def ProgramController.Download (c : ProgramController) (fresh : Nat) (ctx : Ctx) :
    Handled LatestProgramFilesCall Files :=
  let fileType := ctx.Params "file_type" ["installer"]
  let os := ctx.Query "os" []
  let arch := ctx.Query "arch" []
  let branch := ctx.Query "branch" ["stable"]
  let result := c.Repo.LatestProgramFiles fileType os arch branch
  let files := result.1
  let calls := [⟨fileType, os, arch, branch⟩]
  match result.2 with
  | some err =>
    if errorsIs err ErrProgramNotFound then ⟨calls, none, some fiberErrNotFound⟩
    else ⟨calls, none, some (fmtErrorfW fresh "repo lastest program files: " err)⟩
  | none =>
    match ctx.jsonEncoderErr with
    | some err => ⟨calls, some files, some (fmtErrorfW fresh "json serialize: " err)⟩
    | none => ⟨calls, some files, none⟩

/-! ## strconv.ParseInt at base 10 and bit size 64 -/

/-- The two errors a `*strconv.NumError` carries. -/
inductive NumError where
  | ErrSyntax
  | ErrRange
  deriving DecidableEq, Repr

/-- Largest `uint64`. -/
def maxUint64 : Nat := 2 ^ 64 - 1

/-- The loop of `strconv.ParseUint(s, 10, 64)` over the remaining bytes, `n` being the value
accumulated so far. A byte that is no decimal digit ends in a syntax error (a letter is a
digit of value at least 10, which is not below the base). `cutoff` is `maxUint64/10 + 1` and
the sum `n*10 + d` is taken modulo `2^64` as on a `uint64`. -/
def parseUintLoop (n : Nat) : List Char → Nat × Option NumError
  | [] => (n, none)
  | c :: cs =>
    if c.isDigit then
      let d := c.toNat - '0'.toNat
      let cutoff := maxUint64 / 10 + 1
      if n ≥ cutoff then (maxUint64, some .ErrRange)
      else
        let n10 := n * 10
        let n1 := (n10 + d) % 2 ^ 64
        if n1 < n10 ∨ n1 > maxUint64 then (maxUint64, some .ErrRange)
        else parseUintLoop n1 cs
    else (0, some .ErrSyntax)

/-- The call `strconv.ParseUint(s, 10, 64)` on the bytes of `s`. -/
def strconvParseUint (s : List Char) : Nat × Option NumError :=
  match s with
  | [] => (0, some .ErrSyntax)
  | _ :: _ => parseUintLoop 0 s

/-- The conversion `int64(un)` of a `uint64`. -/
def int64OfUint64 (un : Nat) : Int :=
  if un < 2 ^ 63 then (un : Int) else (un : Int) - 2 ^ 64

/-- Negation of an `int64`, wrapping at the minimum. -/
def negInt64 (n : Int) : Int :=
  if n = -(2 ^ 63) then n else -n

/-- The call `strconv.ParseInt(s, 10, 64)`: the sign is picked off, the rest goes through
`ParseUint` and the range of an `int64` is checked. -/
def strconvParseInt (s : String) : Int × Option NumError :=
  match s.data with
  | [] => (0, some .ErrSyntax)
  | c :: cs =>
    let neg := c = '-'
    let rest := if c = '+' ∨ c = '-' then cs else c :: cs
    let r := strconvParseUint rest
    if r.2 = some .ErrSyntax then (0, some .ErrSyntax)
    else
      let un := r.1
      let cutoff : Nat := 2 ^ 63
      if ¬ neg ∧ un ≥ cutoff then ((cutoff : Int) - 1, some .ErrRange)
      else if neg ∧ un > cutoff then (-(cutoff : Int), some .ErrRange)
      else
        let n := int64OfUint64 un
        (if neg then negInt64 n else n, none)

/-! ## ActivityController.serveLastActivity (activitylog.go 11-57) -/

/-- The payload `map[string]interface{}` of an activity entry, as its key and value pairs. -/
abbrev Payload := Option (List (String × String))

/-- Modelled from the spec: the declaration of `buzza.ActivityLog` is not among the sources.
An activity entry has an id, a creation timestamp, a name and an optional payload, the
fields the handler reads. -/
structure ActivityLog where
  Id : Int
  CreatedAt : Time
  Name : String
  Data : Payload
  deriving DecidableEq, Repr

/-- The arguments of one call `Store.ByUserId(ctx, userId, beforeId, limit)`. -/
structure ByUserIdCall where
  userId : Int
  beforeId : Int
  limit : Int
  deriving DecidableEq, Repr

/-- Modelled from the spec: the interface `buzza.ActivityStore` is not among the sources.
The store answers `ByUserId(ctx, userId, beforeId, limit)` with the entries of a user or
an error. -/
structure ActivityStore where
  ByUserId : Int → Int → Int → Option (List ActivityLog) × Option GoError

/-- The struct `ActivityController` (activitylog.go 11-13). -/
structure ActivityController where
  Store : ActivityStore

/-- The local type `Log` of the handler (activitylog.go 46-51). -/
structure Log where
  Id : Int
  CreatedAt : Int
  Name : String
  Data : Payload
  deriving DecidableEq, Repr

/-- The constant `activityLimit` (activitylog.go 40). -/
def activityLimit : Int := 100

/-- The method `ActivityController.serveLastActivity` (activitylog.go 23-57). The calls
recorded are the argument lists of `c.Store.ByUserId`; `mapped` is made with the length of
`logs`, so it is an empty, non-nil slice for nil `logs`. The handler allocates at most one
error object of its own; `fresh` is the number of that allocation. -/
def ActivityController.serveLastActivity (c : ActivityController) (fresh : Nat) (ctx : Ctx) :
    Handled ByUserIdCall (List Log) :=
  match ctx.localsUser with
  | none => ⟨[], none, some fiberErrUnauthorized⟩
  | some user =>
    let beforeIdRaw := ctx.Query "before" []
    let parsed : Int × Option NumError :=
      if beforeIdRaw ≠ "" then strconvParseInt beforeIdRaw else (-1, none)
    match parsed.2 with
    | some _ =>
      ⟨[], none, some (fiberNewError fresh fiberStatusBadRequest "invalid before id")⟩
    | none =>
      let beforeId := parsed.1
      let result := c.Store.ByUserId user.Id beforeId activityLimit
      let calls := [⟨user.Id, beforeId, activityLimit⟩]
      match result.2 with
      | some err => ⟨calls, none, some (fmtErrorfW fresh "get logs by user id: " err)⟩
      | none =>
        let logs := result.1.getD []
        let mapped := logs.map fun log =>
          (⟨log.Id, log.CreatedAt.Unix, log.Name, log.Data⟩ : Log)
        ⟨calls, some mapped, ctx.jsonEncoderErr⟩

/-! ## Specification-side definitions -/

/-- The first of the rows matching the four arguments when they are put in window order
(descending id), if any: the row the ranked query numbers 1. -/
def LatestFilesQuery.top (q : LatestFilesQuery) (program : List Program) : Option Program :=
  ((program.filter q.wheres).insertionSort idDesc).head?

/-- The `Unwrap` chain of an error: the error, the error it wraps, and so on. -/
def unwrapChain : GoError → List GoError
  | .wrapError a msg inner => .wrapError a msg inner :: unwrapChain inner
  | e => [e]

/-- The constraint `unique:build_type` of the model (program.go 34-37), which the table
made by `PrepareDb` carries: rows that agree on type, os, arch and branch are one row. -/
def uniqueBuildType (program : List Program) : Prop :=
  ∀ x ∈ program, ∀ y ∈ program, partitionKey x = partitionKey y → x = y

/-! ## Base-10 integer literals -/

/-- One step of reading a decimal numeral: the value so far, times ten, plus the digit. -/
def decimalStep (n : Nat) (c : Char) : Nat := n * 10 + (c.toNat - '0'.toNat)

/-- The number a string of decimal digits denotes. -/
def decimalValue (ds : List Char) : Nat := ds.foldl decimalStep 0

/-- A base-10 integer literal is an optional sign `+` or `-` followed by one or more decimal
digits; `decimalLiteral s` is the integer it denotes, `none` when `s` is no such literal. -/
def decimalLiteral (s : String) : Option Int :=
  match s.data with
  | [] => none
  | c :: cs =>
    let ds := if c = '+' ∨ c = '-' then cs else c :: cs
    if ds ≠ [] ∧ ds.all Char.isDigit = true then
      some (if c = '-' then -(decimalValue ds : Int) else (decimalValue ds : Int))
    else none

/-! ## Concrete records used in the examples -/

/-- File `A` of the scenario. -/
def fileA : ProgramFile := ⟨"installer-a.exe", "https://dl.example/a", "aa"⟩

/-- File `B` of the scenario. -/
def fileB : ProgramFile := ⟨"installer-b.exe", "https://dl.example/b", "bb"⟩

/-- File `C` of the scenario. -/
def fileC : ProgramFile := ⟨"installer-c.exe", "https://dl.example/c", "cc"⟩

/-- A record of the identity (installer, win, x64, stable). -/
def installerBuild (id : Int) (destroyedAt : NullTime) (file : ProgramFile) : Program :=
  ⟨id, ⟨1636000000 + id, 0⟩, destroyedAt, "installer", "win", "x64", "stable", some [file]⟩

/-- The unset `destroyed_at`. -/
def notDestroyed : NullTime := ⟨⟨0, 0⟩, false⟩

/-- A set `destroyed_at`. -/
def destroyed : NullTime := ⟨⟨1637000000, 0⟩, true⟩

/-- Record 1: live, files `[A]`. -/
def record1 : Program := installerBuild 1 notDestroyed fileA

/-- Record 5: soft-deleted, files `[B]`. -/
def record5 : Program := installerBuild 5 destroyed fileB

/-- Record 7: live, files `[C]`. -/
def record7 : Program := installerBuild 7 notDestroyed fileC

/-- Record 9: live, of another identity (agent, linux, arm64, beta). -/
def record9 : Program :=
  ⟨9, ⟨1636000009, 0⟩, notDestroyed, "agent", "linux", "arm64", "beta", some [fileA, fileB]⟩

/-! ## Concrete requests used in the examples -/

/-- The request `GET /download?arch=x64`: no `file_type`, no `os`, no `branch`. -/
def requestWithoutOs : Ctx :=
  ⟨fun _ => "", fun key => if key = "arch" then "x64" else "", none, none⟩

/-- The request `GET /download/installer?os=win&arch=x64&branch=stable`. -/
def requestInstaller : Ctx :=
  ⟨fun key => if key = "file_type" then "installer" else "",
    fun key =>
      if key = "os" then "win" else if key = "arch" then "x64"
      else if key = "branch" then "stable" else "",
    none, none⟩

/-- The request `GET /activities?before=41&limit=100000` of user 42. -/
def requestActivities : Ctx :=
  ⟨fun _ => "", fun key => if key = "before" then "41" else if key = "limit" then "100000"
    else "", some ⟨42⟩, none⟩

/-- The request `GET /activities?before=abc` of user 42. -/
def requestBadCursor : Ctx :=
  ⟨fun _ => "", fun key => if key = "before" then "abc" else "", some ⟨42⟩, none⟩

/-- An error made at run time by `errors.New("program not found")`: the text of
`ErrProgramNotFound` in another object. -/
def lookalikeNotFound : GoError := errorsNew 1 "program not found"

/-- A repository that answers every call with the error `lookalikeNotFound`. -/
def lookalikeRepo : ProgramRepo := ⟨fun _ _ _ _ => (none, some lookalikeNotFound)⟩

/-- An activity store holding two entries for every user. -/
def twoEntryStore : ActivityStore :=
  ⟨fun _ _ _ => (some [⟨40, ⟨1636000040, 5⟩, "login", none⟩,
    ⟨39, ⟨1636000039, 0⟩, "download", some [("file", "installer")]⟩], none)⟩

/-! ## Lemmas on the ranked query -/

theorem dedup_const {α : Type} [DecidableEq α] (k : α) :
    ∀ l : List α, l ≠ [] → (∀ x ∈ l, x = k) → l.dedup = [k]
  | [], h, _ => absurd rfl h
  | [a], _, hk => by
    have : a = k := hk a (List.mem_singleton.mpr rfl)
    subst this
    rfl
  | a :: b :: l, _, hk => by
    have ha : a = k := hk a (List.mem_cons_self _ _)
    have hb : b = k := hk b (List.mem_cons_of_mem _ (List.mem_cons_self _ _))
    have hmem : a ∈ b :: l := by rw [ha, hb]; exact List.mem_cons_self _ _
    rw [List.dedup_cons_of_mem hmem]
    exact dedup_const k (b :: l) (List.cons_ne_nil _ _)
      fun x hx => hk x (List.mem_cons_of_mem _ hx)

theorem rowNumberOver_single (k : String × String × String × String) (l : List Program)
    (hk : ∀ p ∈ l, partitionKey p = k) :
    rowNumberOver l = ((l.insertionSort idDesc).enumFrom 1).map fun nr => ⟨nr.2, nr.1⟩ := by
  cases l with
  | nil => rfl
  | cons a l =>
    have hd : (((a :: l).map partitionKey).dedup) = [k] :=
      dedup_const k _ (by simp) (by
        intro x hx
        obtain ⟨p, hp, rfl⟩ := List.mem_map.mp hx
        exact hk p hp)
    have hf : ((a :: l).filter fun p => partitionKey p == k) = a :: l :=
      List.filter_eq_self.mpr fun p hp => by simp [hk p hp]
    unfold rowNumberOver
    rw [hd]
    simp only [List.flatMap_cons, List.flatMap_nil, List.append_nil, hf]

theorem filter_first_enumFrom (s : List Program) :
    (((s.enumFrom 1).map fun nr => (⟨nr.2, nr.1⟩ : RankedRow)).filter
      fun t => t.row_number == 1) = (s.head?.map fun r => (⟨r, 1⟩ : RankedRow)).toList := by
  cases s with
  | nil => rfl
  | cons r rs =>
    have : (((rs.enumFrom 2).map fun nr => (⟨nr.2, nr.1⟩ : RankedRow)).filter
        fun t => t.row_number == 1) = [] := by
      rw [List.filter_eq_nil_iff]
      intro t ht
      obtain ⟨nr, hnr, rfl⟩ := List.mem_map.mp ht
      have := List.le_fst_of_mem_enumFrom hnr
      simp
      omega
    simp [List.enumFrom_cons, List.filter_cons, this]

theorem wheres_iff (q : LatestFilesQuery) (p : Program) :
    q.wheres p = true ↔
      p.Type_ = q.fileType ∧ p.OS = q.os ∧ p.Arch = q.arch ∧ p.Branch = q.branch := by
  simp [LatestFilesQuery.wheres, and_assoc]

theorem rows_eq_top (q : LatestFilesQuery) (program : List Program) :
    q.rows program = ((q.top program).map fun r => r.Files).toList := by
  have hk : ∀ p ∈ program.filter q.wheres,
      partitionKey p = (q.fileType, q.os, q.arch, q.branch) := by
    intro p hp
    have := (wheres_iff q p).mp (List.mem_filter.mp hp).2
    simp [partitionKey, this]
  unfold LatestFilesQuery.rows LatestFilesQuery.subq
  rw [rowNumberOver_single _ _ hk, filter_first_enumFrom]
  unfold LatestFilesQuery.top
  cases ((program.filter q.wheres).insertionSort idDesc).head? <;> rfl

theorem top_none_iff (q : LatestFilesQuery) (program : List Program) :
    q.top program = none ↔ ∀ p ∈ program, q.wheres p = false := by
  unfold LatestFilesQuery.top
  rw [List.head?_eq_none_iff]
  constructor
  · intro h p hp
    have hl := List.length_insertionSort idDesc (program.filter q.wheres)
    rw [h] at hl
    have hnil : program.filter q.wheres = [] := List.length_eq_zero.mp hl.symm
    rw [List.filter_eq_nil_iff] at hnil
    simpa using hnil p hp
  · intro h
    have hnil : program.filter q.wheres = [] := by
      rw [List.filter_eq_nil_iff]
      intro p hp
      simp [h p hp]
    rw [hnil]
    rfl

theorem top_some (q : LatestFilesQuery) (program : List Program) (r : Program)
    (h : q.top program = some r) :
    r ∈ program ∧ q.wheres r = true ∧
      ∀ p ∈ program, q.wheres p = true → p.Id ≤ r.Id := by
  unfold LatestFilesQuery.top at h
  have hs := List.sorted_insertionSort idDesc (program.filter q.wheres)
  have hm : ∀ x, x ∈ (program.filter q.wheres).insertionSort idDesc ↔
      x ∈ program.filter q.wheres := fun x => List.mem_insertionSort idDesc
  cases hl : (program.filter q.wheres).insertionSort idDesc with
  | nil => rw [hl] at h; simp at h
  | cons a rest =>
    rw [hl] at h hs hm
    have har : a = r := by simpa using h
    subst har
    have hmem := (hm a).mp (List.mem_cons_self _ _)
    rw [List.mem_filter] at hmem
    refine ⟨hmem.1, hmem.2, ?_⟩
    intro p hp hw
    have hp2 : p ∈ a :: rest := (hm p).mpr (List.mem_filter.mpr ⟨hp, hw⟩)
    rcases List.mem_cons.mp hp2 with rfl | hin
    · exact le_refl _
    · exact List.rel_of_sorted_cons hs p hin

theorem same_self (e : GoError) : e.same e = true := by
  cases e <;> simp [GoError.same]

theorem errorsIs_self (e : GoError) : errorsIs e e = true := by
  cases e <;> simp [errorsIs, same_self]

theorem errorsIs_fmtErrorfW_inner (fresh : Nat) (format : String) (e : GoError) :
    errorsIs (fmtErrorfW fresh format e) e = true := by
  unfold fmtErrorfW
  rw [errorsIs]
  split
  · rfl
  · exact errorsIs_self e

theorem tooMany_ne (n : Nat) :
    ("too many results (" ++ toString n ++ ")") ≠ "program not found" := by
  intro h
  have := congrArg String.data h
  simp [String.data_append] at this

theorem errorsIs_errorsNew (fresh : Nat) (s : String) :
    errorsIs (errorsNew fresh s) ErrProgramNotFound = false := by
  simp [errorsIs, errorsNew, ErrProgramNotFound, GoError.same]

theorem LatestProgramFiles_of_no_row (repo : PgProgramRepo) (fresh : Nat)
    (fileType os arch branch : String)
    (h : repo.DB.Scan ⟨fileType, os, arch, branch⟩ = .ok []) :
    repo.LatestProgramFiles fresh fileType os arch branch
      = (none, some ErrProgramNotFound) := by
  unfold PgProgramRepo.LatestProgramFiles
  rw [h]
  rfl

theorem LatestProgramFiles_of_one_row (repo : PgProgramRepo) (fresh : Nat)
    (fileType os arch branch : String)
    (f : Files) (h : repo.DB.Scan ⟨fileType, os, arch, branch⟩ = .ok [f]) :
    repo.LatestProgramFiles fresh fileType os arch branch = (f, none) := by
  unfold PgProgramRepo.LatestProgramFiles
  rw [h]
  rfl

theorem LatestProgramFiles_of_many_rows (repo : PgProgramRepo) (fresh : Nat)
    (fileType os arch branch : String) (a b : Files) (l : List Files)
    (h : repo.DB.Scan ⟨fileType, os, arch, branch⟩ = .ok (a :: b :: l)) :
    repo.LatestProgramFiles fresh fileType os arch branch =
      (none, some (fmtErrorf fresh ("too many results (" ++ toString (l.length + 2) ++ ")")))
      := by
  unfold PgProgramRepo.LatestProgramFiles
  rw [h]
  rfl

theorem LatestProgramFiles_postgres (program : List Program) (fresh : Nat)
    (fileType os arch branch : String) :
    PgProgramRepo.LatestProgramFiles ⟨postgres program⟩ fresh fileType os arch branch =
      match (⟨fileType, os, arch, branch⟩ : LatestFilesQuery).top program with
      | none => (none, some ErrProgramNotFound)
      | some r => (r.Files, none) := by
  have hrows := rows_eq_top ⟨fileType, os, arch, branch⟩ program
  cases htop : (⟨fileType, os, arch, branch⟩ : LatestFilesQuery).top program with
  | none =>
    rw [htop] at hrows
    exact LatestProgramFiles_of_no_row _ _ _ _ _ _ (by simp [postgres, hrows])
  | some r =>
    rw [htop] at hrows
    exact LatestProgramFiles_of_one_row _ _ _ _ _ _ _ (by simp [postgres, hrows])

/-! ## The repository over a table -/

/-- The scenario of the specification, on a table without the constraint `unique:build_type`:
records 1 (live, `[A]`), 5 (soft-deleted, `[B]`) and 7 (live, `[C]`) of one identity give
`[C]`. -/
theorem LatestProgramFiles_scenario (fresh : Nat) :
    PgProgramRepo.LatestProgramFiles ⟨postgres [record1, record5, record7]⟩ fresh
      "installer" "win" "x64" "stable" = (some [fileC], none) := by
  rw [LatestProgramFiles_postgres]
  decide

/-- C2, evaluated where it fails: when the only record of the identity is soft-deleted the
repository returns its files and no error, not `ErrProgramNotFound`. The table carries the
constraint `unique:build_type`. -/
theorem LatestProgramFiles_all_soft_deleted_found (fresh : Nat) :
    uniqueBuildType [record5, record9] ∧
    (∀ p ∈ [record5, record9], p.softDeleted = false →
      (⟨"installer", "win", "x64", "stable"⟩ : LatestFilesQuery).wheres p = false) ∧
    PgProgramRepo.LatestProgramFiles ⟨postgres [record5, record9]⟩ fresh
      "installer" "win" "x64" "stable" = (some [fileB], none) ∧
    PgProgramRepo.LatestProgramFiles ⟨postgres [record5, record9]⟩ fresh
      "installer" "win" "x64" "stable" ≠ (none, some ErrProgramNotFound) := by
  rw [LatestProgramFiles_postgres]
  refine ⟨by unfold uniqueBuildType; decide, by decide, by decide, by decide⟩

/-- C3: the repository classifies the row list of the query by its length. No row gives
`ErrProgramNotFound`; one row gives the files of that row and no error; more than one row
gives no files and an error for which `errors.Is(err, ErrProgramNotFound)` is false. -/
theorem LatestProgramFiles_classifies_rows (repo : PgProgramRepo) (fresh : Nat)
    (fileType os arch branch : String) (files : List Files)
    (h : repo.DB.Scan ⟨fileType, os, arch, branch⟩ = .ok files) :
    (files.length = 0 →
      repo.LatestProgramFiles fresh fileType os arch branch
        = (none, some ErrProgramNotFound)) ∧
    (∀ f, files = [f] → repo.LatestProgramFiles fresh fileType os arch branch = (f, none)) ∧
    (1 < files.length →
      (repo.LatestProgramFiles fresh fileType os arch branch).1 = none ∧
      (∀ f ∈ files, repo.LatestProgramFiles fresh fileType os arch branch ≠ (f, none)) ∧
      ∃ err, (repo.LatestProgramFiles fresh fileType os arch branch).2 = some err ∧
        err = fmtErrorf fresh ("too many results (" ++ toString files.length ++ ")") ∧
        err ≠ ErrProgramNotFound ∧ err.Error ≠ ErrProgramNotFound.Error ∧
        errorsIs err ErrProgramNotFound = false) := by
  refine ⟨?_, ?_, ?_⟩
  · intro h0
    rw [List.length_eq_zero.mp h0] at h
    exact LatestProgramFiles_of_no_row _ _ _ _ _ _ h
  · intro f hf
    rw [hf] at h
    exact LatestProgramFiles_of_one_row _ _ _ _ _ _ _ h
  · intro hlen
    match files, hlen, h with
    | a :: b :: l, _, h =>
      rw [LatestProgramFiles_of_many_rows _ _ _ _ _ _ _ _ _ h]
      refine ⟨rfl, ?_, _, rfl, rfl, ?_, ?_, errorsIs_errorsNew _ _⟩
      · intro f _ hf
        simp at hf
      · intro he
        have := errorsIs_errorsNew fresh ("too many results (" ++ toString (l.length + 2) ++ ")")
        unfold fmtErrorf at he
        rw [he, errorsIs_self] at this
        exact Bool.noConfusion this
      · exact tooMany_ne (l.length + 2)

/-- C3 at a database that answers the query with two rows. -/
theorem LatestProgramFiles_classifies_rows_witness :
    (PgProgramRepo.LatestProgramFiles ⟨⟨fun _ => .ok [some [fileA], some [fileB]]⟩⟩ 0
        "installer" "win" "x64" "stable").1 = none ∧
    errorsIs (fmtErrorf 0 "too many results (2)") ErrProgramNotFound = false :=
  have h := (LatestProgramFiles_classifies_rows ⟨⟨fun _ => .ok [some [fileA], some [fileB]]⟩⟩
    0 "installer" "win" "x64" "stable" [some [fileA], some [fileB]] rfl).2.2 (by decide)
  ⟨h.1, by decide⟩

/-- C9: over every content of table `program` and for every input the ranked query yields at
most one row, and the repository never returns the "too many results" error. -/
theorem ranked_query_at_most_one_row (program : List Program) (fresh : Nat)
    (fileType os arch branch : String) :
    ((⟨fileType, os, arch, branch⟩ : LatestFilesQuery).rows program).length ≤ 1 ∧
    ∀ (a : Addr) (n : Nat),
      (PgProgramRepo.LatestProgramFiles ⟨postgres program⟩ fresh fileType os arch branch).2
        ≠ some (.errorString a ("too many results (" ++ toString n ++ ")")) := by
  constructor
  · rw [rows_eq_top]
    cases (⟨fileType, os, arch, branch⟩ : LatestFilesQuery).top program <;> simp
  · intro a n
    rw [LatestProgramFiles_postgres]
    cases (⟨fileType, os, arch, branch⟩ : LatestFilesQuery).top program with
    | none =>
      intro he
      have h1 : ErrProgramNotFound =
          .errorString a ("too many results (" ++ toString n ++ ")") := by simpa using he
      have h2 := congrArg GoError.Error h1
      exact tooMany_ne n h2.symm
    | some r => simp

/-- C9 at the table of records 1, 5 and 7. -/
theorem ranked_query_at_most_one_row_witness :
    ((⟨"installer", "win", "x64", "stable"⟩ : LatestFilesQuery).rows
      [record1, record5, record7]).length ≤ 1 :=
  (ranked_query_at_most_one_row [record1, record5, record7] 0
    "installer" "win" "x64" "stable").1

/-- C10: the result depends only on the rows that match the four arguments. For two tables
holding the same matching rows (the first with `id` as a key), whatever their other rows,
the repository returns the same files or the same error. -/
theorem LatestProgramFiles_frame (t₁ t₂ : List Program) (fresh₁ fresh₂ : Nat)
    (fileType os arch branch : String)
    (hpk : ∀ x ∈ t₁, ∀ y ∈ t₁, x.Id = y.Id → x = y)
    (hagree : ∀ p, (⟨fileType, os, arch, branch⟩ : LatestFilesQuery).wheres p = true →
      (p ∈ t₁ ↔ p ∈ t₂)) :
    PgProgramRepo.LatestProgramFiles ⟨postgres t₁⟩ fresh₁ fileType os arch branch =
      PgProgramRepo.LatestProgramFiles ⟨postgres t₂⟩ fresh₂ fileType os arch branch := by
  rw [LatestProgramFiles_postgres, LatestProgramFiles_postgres]
  cases h₁ : (⟨fileType, os, arch, branch⟩ : LatestFilesQuery).top t₁ with
  | none =>
    cases h₂ : (⟨fileType, os, arch, branch⟩ : LatestFilesQuery).top t₂ with
    | none => rfl
    | some r₂ =>
      obtain ⟨hm, hw, _⟩ := top_some _ _ _ h₂
      have := (top_none_iff _ _).mp h₁ r₂ ((hagree r₂ hw).mpr hm)
      rw [hw] at this
      exact Bool.noConfusion this
  | some r₁ =>
    obtain ⟨hm₁, hw₁, hmax₁⟩ := top_some _ _ _ h₁
    cases h₂ : (⟨fileType, os, arch, branch⟩ : LatestFilesQuery).top t₂ with
    | none =>
      have := (top_none_iff _ _).mp h₂ r₁ ((hagree r₁ hw₁).mp hm₁)
      rw [hw₁] at this
      exact Bool.noConfusion this
    | some r₂ =>
      obtain ⟨hm₂, hw₂, hmax₂⟩ := top_some _ _ _ h₂
      have h21 : r₂ ∈ t₁ := (hagree r₂ hw₂).mpr hm₂
      have h12 : r₁ ∈ t₂ := (hagree r₁ hw₁).mp hm₁
      have hid : r₁.Id = r₂.Id := le_antisymm (hmax₂ r₁ h12 hw₁) (hmax₁ r₂ h21 hw₂)
      rw [hpk r₁ hm₁ r₂ h21 hid]

/-- C10 at two tables that share records 1 and 7 and differ in a row of another identity
with a larger id. -/
theorem LatestProgramFiles_frame_witness :
    PgProgramRepo.LatestProgramFiles ⟨postgres [record1, record7]⟩ 0
        "installer" "win" "x64" "stable" =
      PgProgramRepo.LatestProgramFiles ⟨postgres [record9, record7, record1]⟩ 0
        "installer" "win" "x64" "stable" :=
  LatestProgramFiles_frame [record1, record7] [record9, record7, record1] 0 0
    "installer" "win" "x64" "stable" (by decide) (by
      intro p hp
      have h9 : p ≠ record9 := by
        intro h
        rw [h] at hp
        exact absurd hp (by decide)
      simp only [List.mem_cons, List.mem_singleton, List.not_mem_nil, or_false]
      constructor
      · rintro (h | h)
        · exact Or.inr (Or.inr h)
        · exact Or.inr (Or.inl h)
      · rintro (h | h | h)
        · exact absurd h h9
        · exact Or.inr h
        · exact Or.inl h)

/-! ## strconv.ParseInt against decimal literals -/

theorem digit_le_nine (c : Char) (h : c.isDigit = true) : c.toNat - '0'.toNat ≤ 9 := by
  simp only [Char.isDigit, Bool.and_eq_true, decide_eq_true_eq] at h
  have h2 : c.val.toNat ≤ 57 := h.2
  show c.val.toNat - 48 ≤ 9
  omega

theorem le_foldl_decimalStep (cs : List Char) : ∀ n : Nat, n ≤ cs.foldl decimalStep n := by
  induction cs with
  | nil => intro n; exact le_refl n
  | cons c cs ih =>
    intro n
    have := ih (decimalStep n c)
    simp only [List.foldl_cons]
    unfold decimalStep at this ⊢
    omega

theorem parseUintLoop_range (cs : List Char) :
    ∀ n : Nat, (parseUintLoop n cs).2 = some .ErrRange → (parseUintLoop n cs).1 = maxUint64 := by
  induction cs with
  | nil => intro n h; simp [parseUintLoop] at h
  | cons c cs ih =>
    intro n h
    unfold parseUintLoop at h ⊢
    by_cases hd : c.isDigit = true
    · simp only [hd, if_true] at h ⊢
      split
      · rfl
      · split
        · rfl
        · rename_i h1 h2
          simp only [h1, h2, if_false] at h
          exact ih _ h
    · simp [hd] at h

theorem parseUintLoop_ok (cs : List Char) :
    ∀ n : Nat, n < 2 ^ 64 →
      ((parseUintLoop n cs).2 = none ↔
        (cs.all Char.isDigit = true ∧ cs.foldl decimalStep n < 2 ^ 64)) ∧
      ((parseUintLoop n cs).2 = none → (parseUintLoop n cs).1 = cs.foldl decimalStep n) := by
  induction cs with
  | nil => intro n hn; simp [parseUintLoop]; omega
  | cons c cs ih =>
    intro n hn
    unfold parseUintLoop
    by_cases hd : c.isDigit = true
    · have h9 := digit_le_nine c hd
      have hmono := le_foldl_decimalStep cs (decimalStep n c)
      simp only [hd, if_true, List.all_cons, Bool.true_and, List.foldl_cons]
      by_cases hcut : n ≥ maxUint64 / 10 + 1
      · simp only [hcut, if_true]
        have : ¬ (cs.foldl decimalStep (decimalStep n c) < 2 ^ 64) := by
          unfold decimalStep at hmono ⊢
          unfold maxUint64 at hcut
          omega
        simp only [reduceCtorEq, false_iff, false_implies, and_true, not_and]
        exact fun _ => this
      · simp only [hcut, if_false]
        by_cases hov : (n * 10 + (c.toNat - '0'.toNat)) % 2 ^ 64 < n * 10 ∨
            (n * 10 + (c.toNat - '0'.toNat)) % 2 ^ 64 > maxUint64
        · simp only [hov, if_true]
          have : ¬ (cs.foldl decimalStep (decimalStep n c) < 2 ^ 64) := by
            unfold decimalStep at hmono ⊢
            unfold maxUint64 at hcut hov
            omega
          simp only [reduceCtorEq, false_iff, false_implies, and_true, not_and]
          exact fun _ => this
        · simp only [hov, if_false]
          have hlt : n * 10 + (c.toNat - '0'.toNat) < 2 ^ 64 := by
            unfold maxUint64 at hcut hov
            omega
          have hmod : (n * 10 + (c.toNat - '0'.toNat)) % 2 ^ 64 = decimalStep n c := by
            unfold decimalStep
            exact Nat.mod_eq_of_lt hlt
          rw [hmod]
          exact ih (decimalStep n c) (by unfold decimalStep; exact hlt)
    · simp [hd]

theorem strconvParseUint_spec (ds : List Char) :
    ((strconvParseUint ds).2 = none ↔
      (ds ≠ [] ∧ ds.all Char.isDigit = true ∧ decimalValue ds < 2 ^ 64)) ∧
    ((strconvParseUint ds).2 = none → (strconvParseUint ds).1 = decimalValue ds) ∧
    ((strconvParseUint ds).2 = some .ErrRange → (strconvParseUint ds).1 = maxUint64) := by
  cases ds with
  | nil => simp [strconvParseUint]
  | cons c cs =>
    have h := parseUintLoop_ok (c :: cs) 0 (by decide)
    have hr := parseUintLoop_range (c :: cs) 0
    simp only [strconvParseUint, decimalValue, ne_eq, List.cons_ne_nil, not_false_eq_true,
      true_and]
    exact ⟨h.1, h.2, hr⟩

theorem strconvParseInt_ok_iff (s : String) (v : Int) :
    strconvParseInt s = (v, none) ↔
      (decimalLiteral s = some v ∧ -(2 ^ 63) ≤ v ∧ v < 2 ^ 63) := by
  unfold strconvParseInt decimalLiteral
  cases s.data with
  | nil => simp
  | cons c cs =>
    simp only
    generalize (if c = '+' ∨ c = '-' then cs else c :: cs) = ds
    obtain ⟨hok, hval, hrange⟩ := strconvParseUint_spec ds
    rcases hr : strconvParseUint ds with ⟨un, e⟩
    rw [hr] at hok hval hrange
    simp only at hok hval hrange
    cases e with
    | some e =>
      cases e with
      | ErrSyntax =>
        have hno : ¬ (ds ≠ [] ∧ ds.all Char.isDigit = true ∧ decimalValue ds < 2 ^ 64) :=
          fun h => by simpa using hok.mpr h
        simp only [if_true, Prod.mk.injEq, reduceCtorEq, and_false, false_iff]
        rintro ⟨hl, h1, h2⟩
        split at hl
        · rename_i hc
          apply hno
          refine ⟨hc.1, hc.2, ?_⟩
          have hv := Option.some.inj hl
          split at hv <;> omega
        · exact Option.noConfusion hl
      | ErrRange =>
        have hno : ¬ (ds ≠ [] ∧ ds.all Char.isDigit = true ∧ decimalValue ds < 2 ^ 64) :=
          fun h => by simpa using hok.mpr h
        have hun : un = maxUint64 := hrange rfl
        subst hun
        constructor
        · intro h
          exfalso
          by_cases hneg : c = '-'
          · simp [hneg, maxUint64] at h
          · simp [hneg, maxUint64] at h
        · rintro ⟨hl, h1, h2⟩
          exfalso
          split at hl
          · rename_i hc
            apply hno
            refine ⟨hc.1, hc.2, ?_⟩
            have hv := Option.some.inj hl
            split at hv <;> omega
          · exact Option.noConfusion hl
    | none =>
      have hyes := hok.mp rfl
      have hun : un = decimalValue ds := hval rfl
      subst hun
      have hcond : ds ≠ [] ∧ ds.all Char.isDigit = true := ⟨hyes.1, hyes.2.1⟩
      have hlt := hyes.2.2
      rw [if_pos hcond]
      simp only [reduceCtorEq, if_false, Option.some.injEq]
      generalize decimalValue ds = m at hlt
      by_cases hneg : c = '-'
      · simp only [hneg, if_true, true_and, not_true_eq_false, false_and, if_false]
        by_cases hbig : m > 2 ^ 63
        · rw [if_pos hbig]
          simp only [Prod.mk.injEq, reduceCtorEq, and_false, false_iff]
          omega
        · rw [if_neg hbig]
          simp only [Prod.mk.injEq, and_true]
          unfold negInt64 int64OfUint64
          split_ifs <;> omega
      · simp only [hneg, if_false, not_false_eq_true, true_and, false_and]
        by_cases hbig : m ≥ 2 ^ 63
        · rw [if_pos hbig]
          simp only [Prod.mk.injEq, reduceCtorEq, and_false, false_iff]
          omega
        · rw [if_neg hbig]
          simp only [Prod.mk.injEq, and_true]
          unfold int64OfUint64
          split_ifs <;> omega

/-! ## The download handler -/

theorem string_length_eq_zero_iff (s : String) : s.length = 0 ↔ s = "" := by
  constructor
  · intro h
    apply String.ext
    exact List.length_eq_zero.mp h
  · intro h
    rw [h]
    rfl

theorem defaultString_nil (value : String) : defaultString value [] = value := rfl

theorem defaultString_one (value d : String) :
    defaultString value [d] = if value = "" then d else value := by
  unfold defaultString
  by_cases h : value = ""
  · simp [h]
  · have : ¬ value.length = 0 := fun h0 => h ((string_length_eq_zero_iff value).mp h0)
    simp [h, this]

theorem Download_calls (c : ProgramController) (fresh : Nat) (ctx : Ctx) :
    (c.Download fresh ctx).calls = [⟨ctx.Params "file_type" ["installer"], ctx.Query "os" [],
      ctx.Query "arch" [], ctx.Query "branch" ["stable"]⟩] := by
  unfold ProgramController.Download
  simp only
  split
  · split <;> rfl
  · split <;> rfl

theorem fmtErrorfW_ne_notFound (fresh : Nat) (format : String) (e : GoError) :
    fmtErrorfW fresh format e ≠ fiberErrNotFound := by
  intro h
  exact GoError.noConfusion h

theorem errorsIs_iff_unwrapChain (target : GoError) :
    ∀ err : GoError,
      errorsIs err target = true ↔ ∃ x ∈ unwrapChain err, x.same target = true
  | .errorString a s => by
    simp [errorsIs, unwrapChain]
  | .fiberError a code message => by
    simp [errorsIs, unwrapChain]
  | .wrapError a msg inner => by
    have ih := errorsIs_iff_unwrapChain target inner
    rw [errorsIs, unwrapChain]
    by_cases hs : (GoError.wrapError a msg inner).same target = true
    · simp [hs]
    · simp only [hs, Bool.false_eq_true, if_false, List.mem_cons, exists_eq_or_imp, false_or]
      exact ih

/-- C4: when the repository returns an error, the handler returns `fiber.ErrNotFound` exactly
when `errors.Is(err, ErrProgramNotFound)`, that is when the object `ErrProgramNotFound` is
`err` or is on its `Unwrap` chain; any other error is returned wrapped by
`fmt.Errorf("repo lastest program files: %w", err)`, so `errors.Is` still finds the original
in it, and what is returned is not `fiber.ErrNotFound` nor any `*fiber.Error`; nothing is
serialised. When the repository returns no error, the value handed to `ctx.JSON` is the
returned file list. -/
theorem Download_error_mapping (c : ProgramController) (fresh : Nat) (ctx : Ctx)
    (files : Files) (err : Option GoError)
    (h : c.Repo.LatestProgramFiles (ctx.Params "file_type" ["installer"]) (ctx.Query "os" [])
      (ctx.Query "arch" []) (ctx.Query "branch" ["stable"]) = (files, err)) :
    (∀ e, err = some e →
      ((c.Download fresh ctx).ret = some fiberErrNotFound ↔
        errorsIs e ErrProgramNotFound = true) ∧
      (errorsIs e ErrProgramNotFound = true ↔
        ∃ x ∈ unwrapChain e, x.same ErrProgramNotFound = true) ∧
      (errorsIs e ErrProgramNotFound = false →
        (c.Download fresh ctx).ret
          = some (fmtErrorfW fresh "repo lastest program files: " e) ∧
        errorsIs (fmtErrorfW fresh "repo lastest program files: " e) e = true ∧
        errorsIs (fmtErrorfW fresh "repo lastest program files: " e) ErrProgramNotFound
          = false ∧
        (fmtErrorfW fresh "repo lastest program files: " e).same fiberErrNotFound = false ∧
        ∀ a code message,
          fmtErrorfW fresh "repo lastest program files: " e ≠ .fiberError a code message) ∧
      (c.Download fresh ctx).json = none) ∧
    (err = none →
      (c.Download fresh ctx).json = some files ∧
      (c.Download fresh ctx).ret =
        ctx.jsonEncoderErr.map fun e => fmtErrorfW fresh "json serialize: " e) := by
  constructor
  · intro e he
    subst he
    unfold ProgramController.Download
    simp only [h]
    refine ⟨?_, errorsIs_iff_unwrapChain _ e, ?_, ?_⟩
    · by_cases hIs : errorsIs e ErrProgramNotFound = true
      · simp [hIs]
      · simp only [hIs, Bool.false_eq_true, if_false, Option.some.injEq, iff_false]
        exact fmtErrorfW_ne_notFound _ _ _
    · intro hf
      refine ⟨by simp [hf], errorsIs_fmtErrorfW_inner _ _ _, ?_, rfl,
        fun _ _ _ hc => GoError.noConfusion hc⟩
      unfold fmtErrorfW
      rw [errorsIs]
      simp [GoError.same, ErrProgramNotFound]
      exact hf
    · by_cases hIs : errorsIs e ErrProgramNotFound = true <;> simp [hIs]
  · intro he
    subst he
    unfold ProgramController.Download
    simp only [h]
    cases ctx.jsonEncoderErr <;> simp

/-- C4 at a repository that fails with another error object of the text "program not
found": `errors.Is` is false for it and the handler returns it wrapped, not 404. -/
theorem Download_error_mapping_witness :
    errorsIs lookalikeNotFound ErrProgramNotFound = false ∧
    ((⟨lookalikeRepo⟩ : ProgramController).Download 2 requestInstaller).ret
      = some (fmtErrorfW 2 "repo lastest program files: " lookalikeNotFound) :=
  ⟨by decide,
    (((Download_error_mapping ⟨lookalikeRepo⟩ 2 requestInstaller none
      (some lookalikeNotFound) rfl).1 _ rfl).2.2.1 (by decide)).1⟩

/-- C5 as stated fails: for the request without `os` the handler calls the repository with
the empty string as `os` and returns `fiber.ErrNotFound` (404), not a 400 error. -/
theorem Download_missing_os_reaches_repo :
    requestWithoutOs.queryArg "os" = "" ∧
    ((⟨PgProgramRepo.toProgramRepo ⟨postgres [record1]⟩ 0⟩ : ProgramController).Download 1
        requestWithoutOs).calls = [⟨"installer", "", "x64", "stable"⟩] ∧
    ((⟨PgProgramRepo.toProgramRepo ⟨postgres [record1]⟩ 0⟩ : ProgramController).Download 1
        requestWithoutOs).ret = some fiberErrNotFound ∧
    ¬ (∃ a message,
        ((⟨PgProgramRepo.toProgramRepo ⟨postgres [record1]⟩ 0⟩ : ProgramController).Download 1
          requestWithoutOs).ret = some (.fiberError a fiberStatusBadRequest message)) := by
  have hret : ((⟨PgProgramRepo.toProgramRepo ⟨postgres [record1]⟩ 0⟩ :
      ProgramController).Download 1 requestWithoutOs).ret = some fiberErrNotFound := by decide
  refine ⟨rfl, by decide, hret, ?_⟩
  rintro ⟨a, message, hm⟩
  rw [hret] at hm
  simp [fiberErrNotFound, fiberStatusBadRequest] at hm

/-- C5 as amended: a request whose `os` or `arch` is missing or empty is not rejected. The
handler calls the repository once, with the two values as they are in the query (the empty
string for the missing one), and what it returns is nil, `fiber.ErrNotFound` or a wrapped
error, never a 400 error of its own. -/
theorem Download_no_validation (c : ProgramController) (fresh : Nat) (ctx : Ctx)
    (h : ctx.queryArg "os" = "" ∨ ctx.queryArg "arch" = "") :
    (c.Download fresh ctx).calls = [⟨ctx.Params "file_type" ["installer"], ctx.queryArg "os",
      ctx.queryArg "arch", ctx.Query "branch" ["stable"]⟩] ∧
    (∃ call ∈ (c.Download fresh ctx).calls, call.os = "" ∨ call.arch = "") ∧
    ((c.Download fresh ctx).ret = none ∨ (c.Download fresh ctx).ret = some fiberErrNotFound ∨
      ∃ format e, (c.Download fresh ctx).ret = some (fmtErrorfW fresh format e)) ∧
    ∀ a message,
      (c.Download fresh ctx).ret ≠ some (.fiberError a fiberStatusBadRequest message) := by
  have hcalls := Download_calls c fresh ctx
  have hshape : (c.Download fresh ctx).ret = none ∨
      (c.Download fresh ctx).ret = some fiberErrNotFound ∨
      ∃ format e, (c.Download fresh ctx).ret = some (fmtErrorfW fresh format e) := by
    unfold ProgramController.Download
    simp only
    split
    · split
      · exact Or.inr (Or.inl rfl)
      · exact Or.inr (Or.inr ⟨_, _, rfl⟩)
    · split
      · exact Or.inr (Or.inr ⟨_, _, rfl⟩)
      · exact Or.inl rfl
  refine ⟨hcalls, ?_, hshape, ?_⟩
  · rw [hcalls]
    exact ⟨_, List.mem_singleton.mpr rfl, h⟩
  · intro a message hm
    rcases hshape with h0 | h0 | ⟨format, e, h0⟩
    · rw [h0] at hm; exact Option.noConfusion hm
    · rw [h0] at hm
      simp [fiberErrNotFound, fiberStatusBadRequest] at hm
    · rw [h0] at hm
      simp [fmtErrorfW] at hm

/-- C5 as amended, at the request without `os`: the repository is called with the empty
string as `os`. -/
theorem Download_no_validation_witness :
    ((⟨PgProgramRepo.toProgramRepo ⟨postgres [record1]⟩ 0⟩ : ProgramController).Download 1
        requestWithoutOs).calls = [⟨"installer", "", "x64", "stable"⟩] :=
  (Download_no_validation ⟨PgProgramRepo.toProgramRepo ⟨postgres [record1]⟩ 0⟩ 1
    requestWithoutOs (Or.inl rfl)).1

/-- C6: the handler calls the repository once, with `fileType` the route parameter
`file_type` when it is not empty and `"installer"` otherwise, `branch` the query value
`branch` when it is not empty and `"stable"` otherwise, and `os` and `arch` the query values
unchanged. -/
theorem Download_repo_arguments (c : ProgramController) (fresh : Nat) (ctx : Ctx) :
    (c.Download fresh ctx).calls =
      [⟨if ctx.routeParam "file_type" = "" then "installer" else ctx.routeParam "file_type",
        ctx.queryArg "os", ctx.queryArg "arch",
        if ctx.queryArg "branch" = "" then "stable" else ctx.queryArg "branch"⟩] := by
  rw [Download_calls]
  simp only [Ctx.Params, Ctx.Query, defaultString_nil, defaultString_one]

/-- C6 at the request `GET /download/installer?os=win&arch=x64&branch=stable`. -/
theorem Download_repo_arguments_witness :
    ((⟨PgProgramRepo.toProgramRepo ⟨postgres [record1]⟩ 0⟩ : ProgramController).Download 1
        requestInstaller).calls = [⟨"installer", "win", "x64", "stable"⟩] :=
  Download_repo_arguments ⟨PgProgramRepo.toProgramRepo ⟨postgres [record1]⟩ 0⟩ 1
    requestInstaller

/-! ## The activity handler -/

theorem serveLastActivity_of_parsed (c : ActivityController) (fresh : Nat) (ctx : Ctx)
    (user : User) (hu : ctx.localsUser = some user) (beforeId : Int)
    (hp : (if ctx.queryArg "before" ≠ "" then strconvParseInt (ctx.queryArg "before")
      else (-1, none)) = (beforeId, none)) :
    c.serveLastActivity fresh ctx =
      match (c.Store.ByUserId user.Id beforeId 100).2 with
      | some err =>
        ⟨[⟨user.Id, beforeId, 100⟩], none, some (fmtErrorfW fresh "get logs by user id: " err)⟩
      | none =>
        ⟨[⟨user.Id, beforeId, 100⟩],
          some (((c.Store.ByUserId user.Id beforeId 100).1.getD []).map fun log =>
            (⟨log.Id, log.CreatedAt.Unix, log.Name, log.Data⟩ : Log)),
          ctx.jsonEncoderErr⟩ := by
  unfold ActivityController.serveLastActivity
  simp only [hu, Ctx.Query, defaultString_nil, hp, activityLimit]

theorem serveLastActivity_of_parse_error (c : ActivityController) (fresh : Nat) (ctx : Ctx)
    (user : User) (hu : ctx.localsUser = some user) (hne : ctx.queryArg "before" ≠ "")
    (hp : (strconvParseInt (ctx.queryArg "before")).2 ≠ none) :
    c.serveLastActivity fresh ctx =
      ⟨[], none, some (fiberNewError fresh fiberStatusBadRequest "invalid before id")⟩ := by
  unfold ActivityController.serveLastActivity
  simp only [hu, Ctx.Query, defaultString_nil, hne, ne_eq, not_false_eq_true, if_true]
  cases h : (strconvParseInt (ctx.queryArg "before")).2 with
  | none => exact absurd h hp
  | some e => rfl

theorem serveLastActivity_calls_of_parsed (c : ActivityController) (fresh : Nat) (ctx : Ctx)
    (user : User) (hu : ctx.localsUser = some user) (beforeId : Int)
    (hp : (if ctx.queryArg "before" ≠ "" then strconvParseInt (ctx.queryArg "before")
      else (-1, none)) = (beforeId, none)) :
    (c.serveLastActivity fresh ctx).calls = [⟨user.Id, beforeId, 100⟩] := by
  rw [serveLastActivity_of_parsed c fresh ctx user hu beforeId hp]
  split <;> rfl

/-- C7: for a request with an authenticated user, an absent (empty) `before` leads to one
store call with `beforeId = -1`; a `before` that is a base-10 integer literal within the
range of an `int64` leads to one store call with that integer; every other non-empty `before`
is answered with the 400 error "invalid before id" and the store is not called. -/
theorem serveLastActivity_before (c : ActivityController) (fresh : Nat) (ctx : Ctx)
    (user : User) (hu : ctx.localsUser = some user) :
    (ctx.queryArg "before" = "" →
      (c.serveLastActivity fresh ctx).calls = [⟨user.Id, -1, 100⟩]) ∧
    (∀ v : Int, decimalLiteral (ctx.queryArg "before") = some v →
      -(2 ^ 63) ≤ v → v < 2 ^ 63 →
      (c.serveLastActivity fresh ctx).calls = [⟨user.Id, v, 100⟩]) ∧
    (ctx.queryArg "before" ≠ "" →
      (∀ v : Int, decimalLiteral (ctx.queryArg "before") = some v →
        v < -(2 ^ 63) ∨ 2 ^ 63 ≤ v) →
      (c.serveLastActivity fresh ctx).ret
        = some (.fiberError (.heap fresh) 400 "invalid before id") ∧
      (c.serveLastActivity fresh ctx).calls = [] ∧
      (c.serveLastActivity fresh ctx).json = none) := by
  refine ⟨?_, ?_, ?_⟩
  · intro he
    exact serveLastActivity_calls_of_parsed c fresh ctx user hu (-1) (by simp [he])
  · intro v hv hlo hhi
    have hne : ctx.queryArg "before" ≠ "" := by
      intro he
      have h0 : decimalLiteral "" = none := by decide
      rw [he, h0] at hv
      exact Option.noConfusion hv
    have hparse := (strconvParseInt_ok_iff (ctx.queryArg "before") v).mpr ⟨hv, hlo, hhi⟩
    exact serveLastActivity_calls_of_parsed c fresh ctx user hu v (by simp [hne, hparse])
  · intro hne hbad
    have hp : (strconvParseInt (ctx.queryArg "before")).2 ≠ none := by
      intro hnone
      have hpair : strconvParseInt (ctx.queryArg "before") =
          ((strconvParseInt (ctx.queryArg "before")).1, none) := by
        rw [← hnone]
      obtain ⟨hl, h1, h2⟩ := (strconvParseInt_ok_iff _ _).mp hpair
      rcases hbad _ hl with h | h <;> omega
    rw [serveLastActivity_of_parse_error c fresh ctx user hu hne hp]
    exact ⟨rfl, rfl, rfl⟩

/-- C7 at the request `before=abc` of user 42: answered 400 without a store call. -/
theorem serveLastActivity_before_witness :
    ((⟨twoEntryStore⟩ : ActivityController).serveLastActivity 0 requestBadCursor).ret
        = some (.fiberError (.heap 0) 400 "invalid before id") ∧
    ((⟨twoEntryStore⟩ : ActivityController).serveLastActivity 0 requestBadCursor).calls
        = [] ∧
    ((⟨twoEntryStore⟩ : ActivityController).serveLastActivity 0 requestBadCursor).json
        = none :=
  (serveLastActivity_before ⟨twoEntryStore⟩ 0 requestBadCursor ⟨42⟩ rfl).2.2 (by decide)
    (fun v hv =>
      have h0 : decimalLiteral (requestBadCursor.queryArg "before") = none := by decide
      Option.noConfusion (h0 ▸ hv))

/-- C8: a request reaches the store when its user is authenticated and `before` is empty
(`beforeId = -1`) or parses (`beforeId` the parsed value). For every such request the handler
calls `ByUserId` once, with the id of that user, that `beforeId` and the limit 100, whatever
else the request holds. When the store answers `logs` with no error, the handler hands to
`ctx.JSON` the list made of one entry per entry of `logs`, in the order of `logs`, each with
the id, the Unix time of creation, the name and the data of its store entry, and returns
what `ctx.JSON` returns; that list is as long as `logs`, so it has at most 100 entries when
the store honours the limit. When the store answers an error, the handler returns it wrapped
and writes no body. No request at all makes a call with another limit, another user or more
than one call, and every body written is such a list of a store answer. -/
theorem serveLastActivity_limit (c : ActivityController) (fresh : Nat) (ctx : Ctx) :
    (c.serveLastActivity fresh ctx).calls.length ≤ 1 ∧
    (∀ call ∈ (c.serveLastActivity fresh ctx).calls,
      call.limit = 100 ∧ ∃ user, ctx.localsUser = some user ∧ call.userId = user.Id) ∧
    (∀ (user : User) (beforeId : Int), ctx.localsUser = some user →
      ((ctx.queryArg "before" = "" ∧ beforeId = -1) ∨
        (ctx.queryArg "before" ≠ "" ∧
          strconvParseInt (ctx.queryArg "before") = (beforeId, none))) →
      (c.serveLastActivity fresh ctx).calls = [⟨user.Id, beforeId, 100⟩] ∧
      (∀ logs, c.Store.ByUserId user.Id beforeId 100 = (logs, none) →
        (c.serveLastActivity fresh ctx).json = some ((logs.getD []).map fun log =>
          (⟨log.Id, log.CreatedAt.Unix, log.Name, log.Data⟩ : Log)) ∧
        (c.serveLastActivity fresh ctx).ret = ctx.jsonEncoderErr ∧
        (∀ body, (c.serveLastActivity fresh ctx).json = some body →
          body.length = (logs.getD []).length ∧
          ((logs.getD []).length ≤ 100 → body.length ≤ 100))) ∧
      (∀ logs err, c.Store.ByUserId user.Id beforeId 100 = (logs, some err) →
        (c.serveLastActivity fresh ctx).json = none ∧
        (c.serveLastActivity fresh ctx).ret
          = some (fmtErrorfW fresh "get logs by user id: " err))) ∧
    (∀ body, (c.serveLastActivity fresh ctx).json = some body →
      ∃ user beforeId logs, ctx.localsUser = some user ∧
        (c.serveLastActivity fresh ctx).calls = [⟨user.Id, beforeId, 100⟩] ∧
        c.Store.ByUserId user.Id beforeId 100 = (logs, none) ∧
        body = (logs.getD []).map fun log =>
          (⟨log.Id, log.CreatedAt.Unix, log.Name, log.Data⟩ : Log)) := by
  have hreach : ∀ (user : User) (beforeId : Int), ctx.localsUser = some user →
      (if ctx.queryArg "before" ≠ "" then strconvParseInt (ctx.queryArg "before")
        else (-1, none)) = (beforeId, none) →
      (c.serveLastActivity fresh ctx).calls = [⟨user.Id, beforeId, 100⟩] ∧
      (∀ logs, c.Store.ByUserId user.Id beforeId 100 = (logs, none) →
        (c.serveLastActivity fresh ctx).json = some ((logs.getD []).map fun log =>
          (⟨log.Id, log.CreatedAt.Unix, log.Name, log.Data⟩ : Log)) ∧
        (c.serveLastActivity fresh ctx).ret = ctx.jsonEncoderErr ∧
        (∀ body, (c.serveLastActivity fresh ctx).json = some body →
          body.length = (logs.getD []).length ∧
          ((logs.getD []).length ≤ 100 → body.length ≤ 100))) ∧
      (∀ logs err, c.Store.ByUserId user.Id beforeId 100 = (logs, some err) →
        (c.serveLastActivity fresh ctx).json = none ∧
        (c.serveLastActivity fresh ctx).ret
          = some (fmtErrorfW fresh "get logs by user id: " err)) := by
    intro user beforeId hu hp
    have hall := serveLastActivity_of_parsed c fresh ctx user hu beforeId hp
    refine ⟨serveLastActivity_calls_of_parsed c fresh ctx user hu beforeId hp, ?_, ?_⟩
    · intro logs hres
      rw [hres] at hall
      simp only at hall
      rw [hall]
      refine ⟨rfl, rfl, ?_⟩
      intro body hb
      have hb2 : ((logs.getD []).map fun log =>
          (⟨log.Id, log.CreatedAt.Unix, log.Name, log.Data⟩ : Log)) = body :=
        Option.some.inj hb
      rw [← hb2, List.length_map]
      exact ⟨rfl, fun hle => hle⟩
    · intro logs err hres
      rw [hres] at hall
      simp only at hall
      rw [hall]
      exact ⟨rfl, rfl⟩
  have hcases : ∀ user, ctx.localsUser = some user →
      (c.serveLastActivity fresh ctx).calls = [] ∨
      ∃ beforeId, (c.serveLastActivity fresh ctx).calls = [⟨user.Id, beforeId, 100⟩] := by
    intro user hu
    cases hp : (if ctx.queryArg "before" ≠ "" then strconvParseInt (ctx.queryArg "before")
        else (-1, none)) with
    | mk beforeId e =>
      cases e with
      | some e =>
        have hne : ctx.queryArg "before" ≠ "" := by
          intro he
          simp [he] at hp
        rw [if_pos hne] at hp
        rw [serveLastActivity_of_parse_error c fresh ctx user hu hne (by rw [hp]; simp)]
        exact Or.inl rfl
      | none => exact Or.inr ⟨beforeId, (hreach user beforeId hu hp).1⟩
  refine ⟨?_, ?_, ?_, ?_⟩
  · cases hu : ctx.localsUser with
    | none =>
      have : c.serveLastActivity fresh ctx = ⟨[], none, some fiberErrUnauthorized⟩ := by
        unfold ActivityController.serveLastActivity
        simp only [hu]
      rw [this]
      exact Nat.zero_le 1
    | some user =>
      rcases hcases user hu with h | ⟨b, h⟩ <;> rw [h] <;> simp
  · intro call hcall
    cases hu : ctx.localsUser with
    | none =>
      have : c.serveLastActivity fresh ctx = ⟨[], none, some fiberErrUnauthorized⟩ := by
        unfold ActivityController.serveLastActivity
        simp only [hu]
      rw [this] at hcall
      exact absurd hcall (List.not_mem_nil _)
    | some user =>
      rcases hcases user hu with h | ⟨b, h⟩
      · rw [h] at hcall
        exact absurd hcall (List.not_mem_nil _)
      · rw [h, List.mem_singleton] at hcall
        subst hcall
        exact ⟨rfl, user, rfl, rfl⟩
  · intro user beforeId hu hb
    apply hreach user beforeId hu
    rcases hb with ⟨he, hv⟩ | ⟨hne, hv⟩
    · simp [he, hv]
    · simp [hne, hv]
  · intro body hbody
    cases hu : ctx.localsUser with
    | none =>
      have : c.serveLastActivity fresh ctx = ⟨[], none, some fiberErrUnauthorized⟩ := by
        unfold ActivityController.serveLastActivity
        simp only [hu]
      rw [this] at hbody
      exact Option.noConfusion hbody
    | some user =>
      cases hp : (if ctx.queryArg "before" ≠ "" then strconvParseInt (ctx.queryArg "before")
          else (-1, none)) with
      | mk beforeId e =>
        cases e with
        | some e =>
          have hne : ctx.queryArg "before" ≠ "" := by
            intro he
            simp [he] at hp
          rw [if_pos hne] at hp
          rw [serveLastActivity_of_parse_error c fresh ctx user hu hne (by rw [hp]; simp)]
            at hbody
          exact Option.noConfusion hbody
        | none =>
          obtain ⟨hcalls, hok, herr⟩ := hreach user beforeId hu hp
          rcases hres : c.Store.ByUserId user.Id beforeId 100 with ⟨logs, e⟩
          cases e with
          | some err =>
            rw [(herr logs err hres).1] at hbody
            exact Option.noConfusion hbody
          | none =>
            rw [(hok logs hres).1] at hbody
            exact ⟨user, beforeId, logs, rfl, hcalls, hres, (Option.some.inj hbody).symm⟩

/-- C8 at the request `before=41&limit=100000` of user 42 and a store that answers two
entries: one call, for user 42 with limit 100, and a body of the two entries in order. -/
theorem serveLastActivity_limit_witness :
    ((⟨twoEntryStore⟩ : ActivityController).serveLastActivity 0 requestActivities).calls
        = [⟨42, 41, 100⟩] ∧
    ((⟨twoEntryStore⟩ : ActivityController).serveLastActivity 0 requestActivities).json
        = some [⟨40, 1636000040, "login", none⟩,
            ⟨39, 1636000039, "download", some [("file", "installer")]⟩] :=
  have h := (serveLastActivity_limit ⟨twoEntryStore⟩ 0 requestActivities).2.2.1 ⟨42⟩ 41 rfl
    (Or.inr ⟨by decide, by decide⟩)
  ⟨h.1, (h.2.1 _ rfl).1⟩

end Webapi
